import Mathlib

/-!
Verification development for the `arbitrary-dice` visualizer.

The repository renders a virtual die either as a ray-marched convex
polyhedron (sources `unnamed/part_000`, `unnamed/part_001`) or as a
Voronoi-shaded sphere (`index.js`).  This file embeds the core logic of
the polyhedron variant (`part_001`, identical to `part_000` up to an
IIFE wrapper): the Fibonacci-lattice seed generator, the analytic
ray/half-space intersector from the fragment shader, and the
quaternion roll animation (`rollTo` + per-frame `render` step), using
exact real arithmetic for the float computations and `Int` for the
JavaScript `|0` (ToInt32) coercions.
-/

set_option maxRecDepth 10000

namespace ArbitraryDice

noncomputable section

/-! ## Configuration constants (from `unnamed/part_001` lines 4-8) -/

/-- `MAX_SEEDS = 128` in the polyhedron variant (`part_001` line 4). -/
def MAX_SEEDS : ℕ := 128

/-- `MAX_SEEDS = 256` in the sphere variant (`index.js` line 5). -/
def MAX_SEEDS_SPHERE : ℕ := 256

/-- `DURATION_MS = 900` (`part_001` line 5), as a real number of milliseconds. -/
def DURATION_MS : ℝ := 900

/-- `GOLDEN_ANGLE = Math.PI * (3 - Math.sqrt(5))` (`part_001` line 6). -/
def GOLDEN_ANGLE : ℝ := Real.pi * (3 - Real.sqrt 5)

/-- `POLY_OFFSET = 0.9` (`part_001` line 7): the shared plane offset `d` in `n·x ≤ d`. -/
def POLY_OFFSET : ℝ := 0.9

/-- The `1e-6` parallel-ray epsilon of `intersectPoly` (`part_001` line 92). -/
def parallelEps : ℝ := 1 / 1000000

/-- The `1e9` initial value of `tFar` in `intersectPoly` (`part_001` line 83). -/
def tFarInit : ℝ := 1000000000

/-- JavaScript `Number.EPSILON = 2^-52`, used by three.js
`Quaternion.setFromUnitVectors` and `Quaternion.slerp`. -/
def numberEPSILON : ℝ := 1 / 4503599627370496

/-! ## Vectors (three.js `Vector3` over exact reals) -/

/-- A 3-component vector, mirroring three.js `Vector3`. -/
@[ext]
structure Vec3 where
  x : ℝ
  y : ℝ
  z : ℝ

/-- The zero vector. -/
def zero3 : Vec3 := ⟨0, 0, 0⟩

/-- The vector `(1,0,0)` that `setSeeds` writes into stale uniform slots. -/
def unitX : Vec3 := ⟨1, 0, 0⟩

/-- The fixed toward-viewer axis `zWorld = (0,0,1)` (`part_001` line 185). -/
def zWorld : Vec3 := ⟨0, 0, 1⟩

/-- Dot product of two vectors. -/
def dot3 (a b : Vec3) : ℝ := a.x * b.x + a.y * b.y + a.z * b.z

/-- Squared Euclidean norm. -/
def normSq3 (v : Vec3) : ℝ := v.x * v.x + v.y * v.y + v.z * v.z

/-- Euclidean length, as computed by three.js `Vector3.length()`. -/
def len3 (v : Vec3) : ℝ := Real.sqrt (normSq3 v)

/-- Scalar multiple of a vector. -/
def scale3 (c : ℝ) (v : Vec3) : Vec3 := ⟨c * v.x, c * v.y, c * v.z⟩

/-- Componentwise sum. -/
def add3 (a b : Vec3) : Vec3 := ⟨a.x + b.x, a.y + b.y, a.z + b.z⟩

/-- Componentwise negation. -/
def neg3 (v : Vec3) : Vec3 := ⟨-v.x, -v.y, -v.z⟩

/-- three.js `Vector3.normalize()`: divide by `length() || 1`, so the zero
vector is divided by 1 and returned unchanged. -/
def normalize3 (v : Vec3) : Vec3 :=
  scale3 (1 / (if len3 v = 0 then 1 else len3 v)) v

/-! ## 3x3 matrices (the `rot` shader uniform) -/

/-- A 3x3 matrix, row-major, mirroring the `mat3 rot` uniform. -/
@[ext]
structure Mat3 where
  a11 : ℝ
  a12 : ℝ
  a13 : ℝ
  a21 : ℝ
  a22 : ℝ
  a23 : ℝ
  a31 : ℝ
  a32 : ℝ
  a33 : ℝ

/-- The identity matrix (a `new THREE.Matrix3()`, the boot orientation). -/
def id3 : Mat3 := ⟨1, 0, 0, 0, 1, 0, 0, 0, 1⟩

/-- Matrix-vector product `rot * v` as in the shader. -/
def matVec (m : Mat3) (v : Vec3) : Vec3 :=
  ⟨m.a11 * v.x + m.a12 * v.y + m.a13 * v.z,
   m.a21 * v.x + m.a22 * v.y + m.a23 * v.z,
   m.a31 * v.x + m.a32 * v.y + m.a33 * v.z⟩

theorem matVec_id3 (v : Vec3) : matVec id3 v = v := by
  ext <;> simp [matVec, id3]

/-! ## Quaternions (three.js `Quaternion`, component order x y z w) -/

/-- A quaternion with three.js field order. -/
@[ext]
structure Quat where
  x : ℝ
  y : ℝ
  z : ℝ
  w : ℝ

/-- The identity quaternion (`new THREE.Quaternion()`), the boot orientation. -/
def idQ : Quat := ⟨0, 0, 0, 1⟩

/-- three.js `Quaternion.multiplyQuaternions(a, b)` (`a.multiply(b)` computes
this with `a` on the left). -/
def quatMul (a b : Quat) : Quat :=
  ⟨a.x * b.w + a.w * b.x + a.y * b.z - a.z * b.y,
   a.y * b.w + a.w * b.y + a.z * b.x - a.x * b.z,
   a.z * b.w + a.w * b.z + a.x * b.y - a.y * b.x,
   a.w * b.w - a.x * b.x - a.y * b.y - a.z * b.z⟩

/-- Quaternion conjugate. -/
def conjQ (q : Quat) : Quat := ⟨-q.x, -q.y, -q.z, q.w⟩

/-- Squared quaternion norm, `x² + y² + z² + w²`. -/
def normSqQ (q : Quat) : ℝ := q.x * q.x + q.y * q.y + q.z * q.z + q.w * q.w

/-- Scalar multiple of a quaternion. -/
def scaleQ (c : ℝ) (q : Quat) : Quat := ⟨c * q.x, c * q.y, c * q.z, c * q.w⟩

/-- The quaternion with imaginary part `v` and real part `0`. -/
def pureQ (v : Vec3) : Quat := ⟨v.x, v.y, v.z, 0⟩

/-- The imaginary (vector) part of a quaternion. -/
def imQ (q : Quat) : Vec3 := ⟨q.x, q.y, q.z⟩

/-- three.js `Quaternion.normalize()`: if the length is `0` the result is the
identity quaternion `(0,0,0,1)`, else every component is divided by the length. -/
def quatNormalize (q : Quat) : Quat :=
  if Real.sqrt (normSqQ q) = 0 then ⟨0, 0, 0, 1⟩
  else scaleQ (1 / Real.sqrt (normSqQ q)) q

/-- three.js `Vector3.applyQuaternion(q)`:
`t = 2 * cross(q.xyz, v)`, result `v + q.w * t + cross(q.xyz, t)`. -/
def applyQuaternion (q : Quat) (v : Vec3) : Vec3 :=
  let tx := 2 * (q.y * v.z - q.z * v.y)
  let ty := 2 * (q.z * v.x - q.x * v.z)
  let tz := 2 * (q.x * v.y - q.y * v.x)
  ⟨v.x + q.w * tx + q.y * tz - q.z * ty,
   v.y + q.w * ty + q.z * tx - q.x * tz,
   v.z + q.w * tz + q.x * ty - q.y * tx⟩

/-- three.js `Quaternion.setFromUnitVectors(vFrom, vTo)`: the generic branch
builds `(cross(vFrom, vTo), 1 + dot(vFrom, vTo))`; the near-antipodal branch
(`r < Number.EPSILON`) picks an orthogonal axis with `w = 0`.  Both branches
end with `normalize()`. -/
def setFromUnitVectors (vFrom vTo : Vec3) : Quat :=
  let r := dot3 vFrom vTo + 1
  if r < numberEPSILON then
    if |vFrom.x| > |vFrom.z| then
      quatNormalize ⟨-vFrom.y, vFrom.x, 0, 0⟩
    else
      quatNormalize ⟨0, -vFrom.z, vFrom.y, 0⟩
  else
    quatNormalize ⟨vFrom.y * vTo.z - vFrom.z * vTo.y,
                   vFrom.z * vTo.x - vFrom.x * vTo.z,
                   vFrom.x * vTo.y - vFrom.y * vTo.x,
                   r⟩

/-- `Math.atan2 y x`, as the argument of the complex number `x + y i`. -/
def atan2 (y x : ℝ) : ℝ := Complex.arg (Complex.mk x y)

/-- three.js `Quaternion.slerp(qb, t)` called on a copy of `qa`
(`rotQ.copy(startQ).slerp(endQ, t)`).  The source takes early exits at
`t === 0` and `t === 1`, flips `qb` when the quaternion dot is negative,
returns the start when `cosHalfTheta >= 1`, linearly interpolates (then
normalizes) when `sin²` is below `Number.EPSILON`, and otherwise applies the
standard sine-ratio formula. -/
def slerp (qa qb : Quat) (t : ℝ) : Quat :=
  if t = 0 then qa
  else if t = 1 then qb
  else
    let cos0 := qa.w * qb.w + qa.x * qb.x + qa.y * qb.y + qa.z * qb.z
    let qb' := if cos0 < 0 then scaleQ (-1) qb else qb
    let cosHalfTheta := if cos0 < 0 then -cos0 else cos0
    if 1 ≤ cosHalfTheta then qa
    else
      let sqrSinHalfTheta := 1 - cosHalfTheta * cosHalfTheta
      if sqrSinHalfTheta ≤ numberEPSILON then
        quatNormalize ⟨(1 - t) * qa.x + t * qb'.x, (1 - t) * qa.y + t * qb'.y,
                       (1 - t) * qa.z + t * qb'.z, (1 - t) * qa.w + t * qb'.w⟩
      else
        let sinHalfTheta := Real.sqrt sqrSinHalfTheta
        let halfTheta := atan2 sinHalfTheta cosHalfTheta
        let ratioA := Real.sin ((1 - t) * halfTheta) / sinHalfTheta
        let ratioB := Real.sin (t * halfTheta) / sinHalfTheta
        ⟨qa.x * ratioA + qb'.x * ratioB, qa.y * ratioA + qb'.y * ratioB,
         qa.z * ratioA + qb'.z * ratioB, qa.w * ratioA + qb'.w * ratioB⟩

/-! ## The analytic ray/polyhedron intersector (`part_001` lines 78-113)

The GLSL loop `for (i = 0; i < MAX_SEEDS; ++i) { if (i >= count) break; ... }`
iterates exactly over the first `count` uniform seeds, so the embedding takes
that prefix as the `seeds` list and recurses over it, carrying the absolute
face index `i` and the mutable locals `tNear`, `tFar`, `enterIdx`.  Early
`return Hit(false, ...)` exits are modelled by `none`. -/

/-- The GLSL `Hit` struct of `part_001` line 78. -/
@[ext]
structure Hit where
  ok : Bool
  t : ℝ
  faceIdx : ℤ
  normal : Vec3
  pos : Vec3

/-- The `Hit(false, 0.0, -1, vec3(0.0), vec3(0.0))` miss value. -/
def noHit : Hit := ⟨false, 0, -1, zero3, zero3⟩

/-- The loop body of `intersectPoly` (`part_001` lines 86-106), with the
running state threaded explicitly; `none` is an early no-hit return. -/
def intersectLoop (offset : ℝ) (ro rd : Vec3) (rot : Mat3) :
    List Vec3 → ℕ → ℝ → ℝ → ℤ → Option (ℝ × ℝ × ℤ)
  | [], _, tNear, tFar, enterIdx => some (tNear, tFar, enterIdx)
  | v :: rest, i, tNear, tFar, enterIdx =>
    let n := matVec rot v
    let denom := dot3 n rd
    let num := offset - dot3 n ro
    if |denom| < parallelEps then
      if num < 0 then none
      else intersectLoop offset ro rd rot rest (i + 1) tNear tFar enterIdx
    else
      let t := num / denom
      let tNear' := if denom < 0 then (if tNear < t then t else tNear) else tNear
      let enterIdx' := if denom < 0 then (if tNear < t then (i : ℤ) else enterIdx) else enterIdx
      let tFar' := if denom < 0 then tFar else (if t < tFar then t else tFar)
      if tFar' < tNear' then none
      else intersectLoop offset ro rd rot rest (i + 1) tNear' tFar' enterIdx'

/-- `intersectPoly(ro, rd)` of `part_001` lines 81-113: slab-clips the ray
against the half-spaces `dot(rot * seeds[i], x) <= offset`, starting from
`tNear = 0`, `tFar = 1e9`, `enterIdx = -1`. -/
def intersectPoly (rot : Mat3) (seeds : List Vec3) (offset : ℝ) (ro rd : Vec3) : Hit :=
  match intersectLoop offset ro rd rot seeds 0 0 tFarInit (-1) with
  | none => noHit
  | some (tNear, tFar, enterIdx) =>
    if enterIdx < 0 ∨ tFar < 0 then noHit
    else
      let tHit := max tNear 0
      ⟨true, tHit, enterIdx,
       normalize3 (matVec rot (seeds.getD enterIdx.toNat zero3)),
       add3 ro (scale3 tHit rd)⟩

/-! ## The spec's slab-clipping algorithm, stated from its own words

Two transliterations of spec section 4.3: `slabLoopInf` keeps `tFar` as an
extended real (`Option ℝ` with `none = +∞`, the spec's literal
`tFar = +∞`); `slabLoopFin` keeps `tFar` as a plain real initialized to the
finite sentinel `1e9`.  `enterFace = none` is the spec's unset marker. -/

/-- The spec intersector's hit record: hit distance `max(tNear, 0)`, hit
point `origin + direction * hitDistance`, entering face, and that face's
normal as the surface normal. -/
structure SpecHit where
  dist : ℝ
  point : Vec3
  face : ℕ
  normal : Vec3

/-- Modelled from the spec: one slab-clipping pass over the face normals with
`tFar : Option ℝ` (`none` standing for the spec's `+∞`). -/
def slabLoopInf (offset : ℝ) (ro rd : Vec3) :
    List Vec3 → ℕ → ℝ → Option ℝ → Option ℕ → Option (ℝ × Option ℝ × Option ℕ)
  | [], _, tNear, tFar, enterFace => some (tNear, tFar, enterFace)
  | n :: rest, i, tNear, tFar, enterFace =>
    let denom := dot3 n rd
    let num := offset - dot3 n ro
    if |denom| < parallelEps then
      if num < 0 then none
      else slabLoopInf offset ro rd rest (i + 1) tNear tFar enterFace
    else
      let t := num / denom
      let tNear' := if denom < 0 ∧ tNear < t then t else tNear
      let enterFace' := if denom < 0 ∧ tNear < t then some i else enterFace
      let tFar' : Option ℝ :=
        if 0 < denom then
          match tFar with
          | none => some t
          | some f => if t < f then some t else some f
        else tFar
      match tFar' with
      | none => slabLoopInf offset ro rd rest (i + 1) tNear' tFar' enterFace'
      | some f =>
        if f < tNear' then none
        else slabLoopInf offset ro rd rest (i + 1) tNear' tFar' enterFace'

/-- Modelled from the spec: the full intersector with `tFar` starting at the
spec's `+∞`. -/
def intersectPolySpecInf (normals : List Vec3) (offset : ℝ) (ro rd : Vec3) :
    Option SpecHit :=
  match slabLoopInf offset ro rd normals 0 0 none none with
  | none => none
  | some (tNear, tFar, enterFace) =>
    match enterFace with
    | none => none
    | some k =>
      let mk : Option SpecHit :=
        some ⟨max tNear 0, add3 ro (scale3 (max tNear 0) rd), k, normals.getD k zero3⟩
      match tFar with
      | none => mk
      | some f => if f < 0 then none else mk

/-- Modelled from the spec, amended on the single point the code forces: one
slab-clipping pass with a plain real `tFar` (initialized by the caller to the
finite sentinel `1e9` instead of `+∞`). -/
def slabLoopFin (offset : ℝ) (ro rd : Vec3) :
    List Vec3 → ℕ → ℝ → ℝ → Option ℕ → Option (ℝ × ℝ × Option ℕ)
  | [], _, tNear, tFar, enterFace => some (tNear, tFar, enterFace)
  | n :: rest, i, tNear, tFar, enterFace =>
    let denom := dot3 n rd
    let num := offset - dot3 n ro
    if |denom| < parallelEps then
      if num < 0 then none
      else slabLoopFin offset ro rd rest (i + 1) tNear tFar enterFace
    else
      let t := num / denom
      let tNear' := if denom < 0 ∧ tNear < t then t else tNear
      let enterFace' := if denom < 0 ∧ tNear < t then some i else enterFace
      let tFar' := if 0 < denom ∧ t < tFar then t else tFar
      if tFar' < tNear' then none
      else slabLoopFin offset ro rd rest (i + 1) tNear' tFar' enterFace'

/-- Modelled from the spec, amended: the full intersector with `tFar`
starting from the finite sentinel `1e9`. -/
def intersectPolySpecFin (normals : List Vec3) (offset : ℝ) (ro rd : Vec3) :
    Option SpecHit :=
  match slabLoopFin offset ro rd normals 0 0 tFarInit none with
  | none => none
  | some (tNear, tFar, enterFace) =>
    match enterFace with
    | none => none
    | some k =>
      if tFar < 0 then none
      else some ⟨max tNear 0, add3 ro (scale3 (max tNear 0) rd), k, normals.getD k zero3⟩

/-- The `-1`/index encoding the shader uses for the spec's
`enterFace : Option ℕ`. -/
def encodeE : Option ℕ → ℤ
  | none => -1
  | some k => (k : ℤ)

/-- Turn a spec result into the shader's `Hit` struct. -/
def specToHit : Option SpecHit → Hit
  | none => noHit
  | some h => ⟨true, h.dist, (h.face : ℤ), h.normal, h.point⟩

/-! ## Seed generation (`part_001` lines 160-170) -/

/-- The loop body of `fibonacciSeeds` (`part_001` lines 162-167): the `i`-th
lattice direction for a face count `n`, normalized. -/
def fibDir (n i : ℕ) : Vec3 :=
  let t : ℝ := ((i : ℝ) + 0.5) / (n : ℝ)
  let z := 1 - 2 * t
  let r := Real.sqrt (max 0 (1 - z * z))
  let phi := (i : ℝ) * GOLDEN_ANGLE
  normalize3 ⟨Real.cos phi * r, z, Real.sin phi * r⟩

/-- `fibonacciSeeds(n)` (`part_001` lines 160-170): `n` Fibonacci-lattice
directions, each normalized. -/
def fibonacciSeeds (n : ℕ) : List Vec3 :=
  (List.range n).map (fibDir n)

/-! ## JavaScript integer coercions -/

/-- JavaScript `x | 0` (ToInt32): wrap an integer into `[-2^31, 2^31)`. -/
def toInt32 (i : ℤ) : ℤ := (i + 2 ^ 31) % 2 ^ 32 - 2 ^ 31

/-- The index wrap of `rollTo` (`part_001` line 196):
`((idx|0) % len + len) % len`, with JavaScript `%` being truncated
(sign-of-dividend) remainder, i.e. `Int.tmod`. -/
def wrapIndex (idx : ℤ) (len : ℕ) : ℕ :=
  ((((toInt32 idx).tmod (len : ℤ)) + (len : ℤ)).tmod (len : ℤ)).toNat

/-! ## Program state and the roll animation (`part_001` lines 182-245)

The module-level mutable state of `part_001`: the shader's seed uniforms and
active count, the stored `quad.userData.seedDirs` list, the orientation
`rotQ`, the optional animation record, and the `result` DOM readout.  The
readout text `Result: k / dn` is modelled by the pair `(k, n)`; the `rot`
matrix uniform is a pure mirror of `rotQ` (via `applyRotationUniform`) and is
not duplicated in the state. -/

/-- The animation record `{startQ, endQ, startTime, dur}` (`part_001` line 207). -/
structure AnimState where
  startQ : Quat
  endQ : Quat
  startTime : ℝ
  dur : ℝ

/-- The mutable program state of the polyhedron variant. -/
structure DieState where
  seedDirs : Option (List Vec3)
  uniformSeeds : List Vec3
  count : ℕ
  rotQ : Quat
  anim : Option AnimState
  resultText : Option (ℕ × ℕ)

/-- The state at module load: no seeds yet, all uniform slots `(1,0,0)`,
identity orientation, no animation, no result text. -/
def initState : DieState :=
  ⟨none, List.replicate MAX_SEEDS unitX, 0, idQ, none, none⟩

/-- `setSeeds(n)` (`part_001` lines 172-180): clamp `n|0` into
`[3, MAX_SEEDS]`, regenerate the seeds, reset every uniform slot to `(1,0,0)`
and overwrite the first `n` with the fresh seeds, store the fresh list in
`userData.seedDirs`. -/
def setSeeds (n : ℤ) (s : DieState) : DieState :=
  let m := max 3 (min (MAX_SEEDS : ℤ) (toInt32 n))
  let c := m.toNat
  let pts := fibonacciSeeds c
  { s with uniformSeeds := pts ++ List.replicate (MAX_SEEDS - c) unitX,
           count := c,
           seedDirs := some pts }

/-- `rollTo(idx)` (`part_001` lines 192-209): bail out when no seeds are
stored, wrap the index, rotate the target seed by the current orientation,
build the delta quaternion onto `zWorld`, store a fresh animation record
starting now from the current orientation, and set the result readout. -/
def rollTo (idx : ℤ) (now : ℝ) (s : DieState) : DieState :=
  match s.seedDirs with
  | none => s
  | some dirs =>
    if dirs.length = 0 then s
    else
      let len := dirs.length
      let i := wrapIndex idx len
      let nWorld := normalize3 (applyQuaternion s.rotQ (dirs.getD i zero3))
      let delta := setFromUnitVectors nWorld zWorld
      let startQ := s.rotQ
      let endQ := quatMul delta startQ
      { s with anim := some ⟨startQ, endQ, now, DURATION_MS⟩,
               resultText := some (i + 1, len) }

/-- The per-frame animation step inside `render()` (`part_001` lines 233-244):
while an animation is active, clamp the elapsed fraction to `[0,1]`, apply the
ease-out cubic, slerp the orientation, and clear the animation once `t >= 1`. -/
def render (now : ℝ) (s : DieState) : DieState :=
  match s.anim with
  | none => s
  | some a =>
    let t := min 1 ((now - a.startTime) / a.dur)
    let tt := 1 - (1 - t) ^ 3
    { s with rotQ := slerp a.startQ a.endQ tt,
             anim := if 1 ≤ t then none else some a }

/-! ## Algebraic facts about the three.js vector/quaternion operations -/

theorem scale3_one (v : Vec3) : scale3 1 v = v := by
  ext <;> simp [scale3]

theorem scale3_scale3 (c d : ℝ) (v : Vec3) :
    scale3 c (scale3 d v) = scale3 (c * d) v := by
  ext <;> simp [scale3] <;> ring

theorem normalize3_of_unit (v : Vec3) (h : normSq3 v = 1) : normalize3 v = v := by
  have hl : len3 v = 1 := by rw [len3, h, Real.sqrt_one]
  rw [normalize3, hl]
  norm_num [scale3_one]

theorem quatMul_assoc (a b c : Quat) :
    quatMul (quatMul a b) c = quatMul a (quatMul b c) := by
  ext <;> simp [quatMul] <;> ring

theorem conjQ_mul (a b : Quat) : conjQ (quatMul a b) = quatMul (conjQ b) (conjQ a) := by
  ext <;> simp [quatMul, conjQ] <;> ring

theorem normSqQ_mul (a b : Quat) : normSqQ (quatMul a b) = normSqQ a * normSqQ b := by
  simp only [quatMul, normSqQ]
  ring

theorem normSqQ_conj (q : Quat) : normSqQ (conjQ q) = normSqQ q := by
  simp only [conjQ, normSqQ]
  ring

theorem normSqQ_pure (v : Vec3) : normSqQ (pureQ v) = normSq3 v := by
  simp [pureQ, normSqQ, normSq3]

theorem normSqQ_nonneg (q : Quat) : 0 ≤ normSqQ q := by
  have := mul_self_nonneg q.x
  have := mul_self_nonneg q.y
  have := mul_self_nonneg q.z
  have := mul_self_nonneg q.w
  simp only [normSqQ]
  linarith

theorem quatMul_scaleQ_left (c : ℝ) (q p : Quat) :
    quatMul (scaleQ c q) p = scaleQ c (quatMul q p) := by
  ext <;> simp [quatMul, scaleQ] <;> ring

theorem quatMul_scaleQ_right (c : ℝ) (q p : Quat) :
    quatMul q (scaleQ c p) = scaleQ c (quatMul q p) := by
  ext <;> simp [quatMul, scaleQ] <;> ring

theorem conjQ_scaleQ (c : ℝ) (q : Quat) : conjQ (scaleQ c q) = scaleQ c (conjQ q) := by
  ext <;> simp [conjQ, scaleQ]

theorem imQ_scaleQ (c : ℝ) (q : Quat) : imQ (scaleQ c q) = scale3 c (imQ q) := by
  ext <;> simp [imQ, scaleQ, scale3]

theorem normSqQ_scaleQ (c : ℝ) (q : Quat) : normSqQ (scaleQ c q) = c * c * normSqQ q := by
  simp only [scaleQ, normSqQ]
  ring

/-- The three.js `applyQuaternion` formula agrees with the quaternion sandwich
`q v q*` up to an explicit defect proportional to `1 - ‖q‖²`. -/
theorem applyQuaternion_eq_sandwich (q : Quat) (v : Vec3) :
    applyQuaternion q v =
      add3 (imQ (quatMul (quatMul q (pureQ v)) (conjQ q)))
        (scale3 (1 - normSqQ q) v) := by
  ext <;> simp [applyQuaternion, quatMul, conjQ, pureQ, imQ, add3, scale3, normSqQ] <;> ring

/-- The sandwich `q v q*` of a pure quaternion has zero real part. -/
theorem sandwich_re_zero (q : Quat) (v : Vec3) :
    (quatMul (quatMul q (pureQ v)) (conjQ q)).w = 0 := by
  simp only [quatMul, conjQ, pureQ]
  ring

theorem pureQ_imQ (q : Quat) (h : q.w = 0) : pureQ (imQ q) = q := by
  cases q
  simp only [pureQ, imQ] at *
  simp [h]

/-- For a unit quaternion, `applyQuaternion` is exactly the sandwich. -/
theorem applyQuaternion_of_unit (q : Quat) (v : Vec3) (h : normSqQ q = 1) :
    applyQuaternion q v = imQ (quatMul (quatMul q (pureQ v)) (conjQ q)) := by
  rw [applyQuaternion_eq_sandwich, h]
  ext <;> simp [add3, scale3]

/-- Rotation by a product of unit quaternions composes the two rotations. -/
theorem applyQuaternion_mul (q1 q2 : Quat) (v : Vec3)
    (h1 : normSqQ q1 = 1) (h2 : normSqQ q2 = 1) :
    applyQuaternion (quatMul q1 q2) v = applyQuaternion q1 (applyQuaternion q2 v) := by
  have h12 : normSqQ (quatMul q1 q2) = 1 := by rw [normSqQ_mul, h1, h2]; ring
  rw [applyQuaternion_of_unit _ _ h12, applyQuaternion_of_unit _ _ h2,
    applyQuaternion_of_unit _ _ h1, pureQ_imQ _ (sandwich_re_zero q2 v)]
  ext <;> simp [quatMul, conjQ, pureQ, imQ] <;> ring

/-- Rotation by a unit quaternion preserves the squared norm. -/
theorem normSq3_applyQuaternion (q : Quat) (v : Vec3) (h : normSqQ q = 1) :
    normSq3 (applyQuaternion q v) = normSq3 v := by
  rw [applyQuaternion_of_unit _ _ h]
  have hw := sandwich_re_zero q v
  have him : normSq3 (imQ (quatMul (quatMul q (pureQ v)) (conjQ q)))
      = normSqQ (quatMul (quatMul q (pureQ v)) (conjQ q)) := by
    simp only [normSq3, imQ, normSqQ, hw]
    ring
  rw [him, normSqQ_mul, normSqQ_mul, normSqQ_conj, h, normSqQ_pure]
  ring

theorem quatNormalize_unit (q : Quat) (h : normSqQ q ≠ 0) :
    normSqQ (quatNormalize q) = 1 := by
  have hpos : 0 < normSqQ q := lt_of_le_of_ne (normSqQ_nonneg q) (Ne.symm h)
  have hs : Real.sqrt (normSqQ q) ≠ 0 := ne_of_gt (Real.sqrt_pos.mpr hpos)
  have hss : Real.sqrt (normSqQ q) * Real.sqrt (normSqQ q) = normSqQ q :=
    Real.mul_self_sqrt hpos.le
  rw [quatNormalize, if_neg hs, normSqQ_scaleQ]
  field_simp

/-- Core geometric identity behind `setFromUnitVectors`: for unit `a`, `b`,
sandwiching `a` with the raw quaternion `(a × b, 1 + a·b)` yields `b` scaled
by that quaternion's squared norm. -/
theorem sandwich_raw (a b : Vec3) (hA : normSq3 a = 1) (hB : normSq3 b = 1) :
    imQ (quatMul (quatMul ⟨a.y * b.z - a.z * b.y, a.z * b.x - a.x * b.z,
          a.x * b.y - a.y * b.x, dot3 a b + 1⟩ (pureQ a))
        (conjQ ⟨a.y * b.z - a.z * b.y, a.z * b.x - a.x * b.z,
          a.x * b.y - a.y * b.x, dot3 a b + 1⟩))
      = scale3 (normSqQ ⟨a.y * b.z - a.z * b.y, a.z * b.x - a.x * b.z,
          a.x * b.y - a.y * b.x, dot3 a b + 1⟩) b := by
  simp only [normSq3] at hA hB
  ext
  · simp only [quatMul, conjQ, pureQ, imQ, scale3, normSqQ, dot3]
    linear_combination (-(a.x + b.x) - (b.x * b.x + b.y * b.y + b.z * b.z - 1) * (a.x + b.x)
      + 2 * (a.x * b.x + a.y * b.y + a.z * b.z + 1) * b.x) * hA + (-(a.x + b.x)) * hB
  · simp only [quatMul, conjQ, pureQ, imQ, scale3, normSqQ, dot3]
    linear_combination (-(a.y + b.y) - (b.x * b.x + b.y * b.y + b.z * b.z - 1) * (a.y + b.y)
      + 2 * (a.x * b.x + a.y * b.y + a.z * b.z + 1) * b.y) * hA + (-(a.y + b.y)) * hB
  · simp only [quatMul, conjQ, pureQ, imQ, scale3, normSqQ, dot3]
    linear_combination (-(a.z + b.z) - (b.x * b.x + b.y * b.y + b.z * b.z - 1) * (a.z + b.z)
      + 2 * (a.x * b.x + a.y * b.y + a.z * b.z + 1) * b.z) * hA + (-(a.z + b.z)) * hB

/-- Squared norm of the raw `setFromUnitVectors` quaternion for unit inputs. -/
theorem normSqQ_raw (a b : Vec3) (hA : normSq3 a = 1) (hB : normSq3 b = 1) :
    normSqQ ⟨a.y * b.z - a.z * b.y, a.z * b.x - a.x * b.z,
      a.x * b.y - a.y * b.x, dot3 a b + 1⟩ = 2 * (dot3 a b + 1) := by
  simp only [normSq3] at hA hB
  simp only [normSqQ, dot3]
  linear_combination (b.x * b.x + b.y * b.y + b.z * b.z) * hA + hB

/-- In the generic branch, `setFromUnitVectors a b` is a unit quaternion whose
rotation maps `a` exactly onto `b`. -/
theorem setFromUnitVectors_spec (a b : Vec3) (hA : normSq3 a = 1) (hB : normSq3 b = 1)
    (hgen : numberEPSILON ≤ dot3 a b + 1) :
    normSqQ (setFromUnitVectors a b) = 1 ∧
      applyQuaternion (setFromUnitVectors a b) a = b := by
  have heps : (0 : ℝ) < numberEPSILON := by norm_num [numberEPSILON]
  have hrpos : 0 < dot3 a b + 1 := lt_of_lt_of_le heps hgen
  have hbranch : ¬(dot3 a b + 1 < numberEPSILON) := not_lt.mpr hgen
  set q0 : Quat := ⟨a.y * b.z - a.z * b.y, a.z * b.x - a.x * b.z,
    a.x * b.y - a.y * b.x, dot3 a b + 1⟩ with hq0
  have hS : normSqQ q0 = 2 * (dot3 a b + 1) := normSqQ_raw a b hA hB
  have hSpos : 0 < normSqQ q0 := by rw [hS]; linarith
  have hSne : normSqQ q0 ≠ 0 := ne_of_gt hSpos
  have hsqrt : Real.sqrt (normSqQ q0) ≠ 0 := ne_of_gt (Real.sqrt_pos.mpr hSpos)
  have hform : setFromUnitVectors a b = quatNormalize q0 := by
    rw [setFromUnitVectors]
    simp only [hbranch, if_false]
  have hunit : normSqQ (setFromUnitVectors a b) = 1 := by
    rw [hform]; exact quatNormalize_unit q0 hSne
  refine ⟨hunit, ?_⟩
  have hss : Real.sqrt (normSqQ q0) * Real.sqrt (normSqQ q0) = normSqQ q0 :=
    Real.mul_self_sqrt hSpos.le
  rw [applyQuaternion_of_unit _ _ hunit, hform, quatNormalize, if_neg hsqrt]
  rw [quatMul_scaleQ_left, conjQ_scaleQ, quatMul_scaleQ_right, quatMul_scaleQ_left,
    imQ_scaleQ, imQ_scaleQ, sandwich_raw a b hA hB, scale3_scale3, scale3_scale3]
  have hc : 1 / Real.sqrt (normSqQ q0) * (1 / Real.sqrt (normSqQ q0)) * normSqQ q0 = 1 := by
    field_simp
  rw [← hq0, hc, scale3_one]

/-! ## Facts about the Fibonacci-lattice seed generator -/

theorem fibonacciSeeds_length (n : ℕ) : (fibonacciSeeds n).length = n := by
  simp [fibonacciSeeds]

theorem fibonacciSeeds_get (n i : ℕ) (h : i < (fibonacciSeeds n).length) :
    (fibonacciSeeds n).get ⟨i, h⟩ = fibDir n i := by
  simp [fibonacciSeeds]

/-- A lattice point `(cos φ · r, z, sin φ · r)` with `r = sqrt(max 0 (1-z²))`
is a unit vector whenever `z² ≤ 1`. -/
theorem latt_unit (z phi : ℝ) (hz : z * z ≤ 1) :
    normSq3 ⟨Real.cos phi * Real.sqrt (max 0 (1 - z * z)), z,
      Real.sin phi * Real.sqrt (max 0 (1 - z * z))⟩ = 1 := by
  have h0 : 0 ≤ 1 - z * z := by linarith
  have hmax : max (0 : ℝ) (1 - z * z) = 1 - z * z := max_eq_right h0
  have hr : Real.sqrt (max 0 (1 - z * z)) * Real.sqrt (max 0 (1 - z * z)) = 1 - z * z := by
    rw [hmax]
    exact Real.mul_self_sqrt h0
  have hsc : Real.sin phi ^ 2 + Real.cos phi ^ 2 = 1 := Real.sin_sq_add_cos_sq phi
  simp only [normSq3]
  linear_combination (Real.sqrt (max 0 (1 - z * z)) * Real.sqrt (max 0 (1 - z * z))) * hsc + hr

/-- The `z` coordinate of the `i`-th lattice point lies strictly inside `(-1, 1)`. -/
theorem fibZ_bounds (n i : ℕ) (hi : i < n) :
    -1 < 1 - 2 * (((i : ℝ) + 0.5) / (n : ℝ)) ∧ 1 - 2 * (((i : ℝ) + 0.5) / (n : ℝ)) < 1 := by
  have hn : 0 < n := lt_of_le_of_lt (Nat.zero_le i) hi
  have hnR : (0 : ℝ) < (n : ℝ) := by exact_mod_cast hn
  have h1 : (i : ℝ) + 1 ≤ (n : ℝ) := by exact_mod_cast hi
  have hi0 : (0 : ℝ) ≤ (i : ℝ) := Nat.cast_nonneg i
  have ht0 : 0 < ((i : ℝ) + 0.5) / (n : ℝ) := by positivity
  have ht1 : ((i : ℝ) + 0.5) / (n : ℝ) < 1 := (div_lt_one hnR).mpr (by linarith)
  constructor <;> linarith

/-- The normalization inside `fibDir` is the identity: the raw lattice point
is already a unit vector. -/
theorem fibDir_eq (n i : ℕ) (hi : i < n) :
    fibDir n i = ⟨Real.cos ((i : ℝ) * GOLDEN_ANGLE)
        * Real.sqrt (max 0 (1 - (1 - 2 * (((i : ℝ) + 0.5) / (n : ℝ)))
            * (1 - 2 * (((i : ℝ) + 0.5) / (n : ℝ))))),
      1 - 2 * (((i : ℝ) + 0.5) / (n : ℝ)),
      Real.sin ((i : ℝ) * GOLDEN_ANGLE)
        * Real.sqrt (max 0 (1 - (1 - 2 * (((i : ℝ) + 0.5) / (n : ℝ)))
            * (1 - 2 * (((i : ℝ) + 0.5) / (n : ℝ)))))⟩ := by
  obtain ⟨hlo, hhi⟩ := fibZ_bounds n i hi
  have hz : (1 - 2 * (((i : ℝ) + 0.5) / (n : ℝ))) * (1 - 2 * (((i : ℝ) + 0.5) / (n : ℝ))) ≤ 1 := by
    nlinarith
  rw [fibDir]
  exact normalize3_of_unit _ (latt_unit _ _ hz)

theorem fibDir_unit (n i : ℕ) (hi : i < n) : normSq3 (fibDir n i) = 1 := by
  obtain ⟨hlo, hhi⟩ := fibZ_bounds n i hi
  have hz : (1 - 2 * (((i : ℝ) + 0.5) / (n : ℝ))) * (1 - 2 * (((i : ℝ) + 0.5) / (n : ℝ))) ≤ 1 := by
    nlinarith
  rw [fibDir_eq n i hi]
  exact latt_unit _ _ hz

theorem fibDir_inj (n i j : ℕ) (hi : i < n) (hj : j < n) (hij : i ≠ j) :
    fibDir n i ≠ fibDir n j := by
  intro heq
  have hn : 0 < n := lt_of_le_of_lt (Nat.zero_le i) hi
  have hnR : (0 : ℝ) ≠ (n : ℝ) := by
    have : (0 : ℝ) < (n : ℝ) := by exact_mod_cast hn
    exact ne_of_lt this
  have hy : (fibDir n i).y = (fibDir n j).y := by rw [heq]
  rw [fibDir_eq n i hi, fibDir_eq n j hj] at hy
  simp only at hy
  have hfrac : ((i : ℝ) + 0.5) / (n : ℝ) = ((j : ℝ) + 0.5) / (n : ℝ) := by linarith
  have hij' : i = j := by
    field_simp at hfrac
    exact_mod_cast hfrac
  exact hij hij'

/-- Every member of `fibonacciSeeds n` is a unit vector. -/
theorem fibonacciSeeds_mem_unit (n : ℕ) (v : Vec3) (hv : v ∈ fibonacciSeeds n) :
    normSq3 v = 1 := by
  rw [fibonacciSeeds, List.mem_map] at hv
  obtain ⟨i, hi, rfl⟩ := hv
  exact fibDir_unit n i (List.mem_range.mp hi)

/-- Claim C3: for every `n` in `[3, MAX_SEEDS]`, `fibonacciSeeds n` returns
exactly `n` vectors, the `i`-th being the normalization of
`(cos φ · r, z, sin φ · r)` with `z = 1 - 2(i+0.5)/n`,
`r = sqrt(max 0 (1-z²))`, `φ = i · GOLDEN_ANGLE` (this is `fibDir n i` by
definition); every returned vector is exactly unit length, no two returned
vectors are identical, and the result is deterministic in `n`. -/
theorem C3_thm (n : ℕ) (h3 : 3 ≤ n) (hM : n ≤ MAX_SEEDS_SPHERE) :
    (fibonacciSeeds n).length = n
    ∧ (∀ i (h : i < (fibonacciSeeds n).length), (fibonacciSeeds n).get ⟨i, h⟩ = fibDir n i)
    ∧ (∀ i (h : i < (fibonacciSeeds n).length),
        normSq3 ((fibonacciSeeds n).get ⟨i, h⟩) = 1)
    ∧ (∀ i j (hi : i < (fibonacciSeeds n).length) (hj : j < (fibonacciSeeds n).length),
        i ≠ j → (fibonacciSeeds n).get ⟨i, hi⟩ ≠ (fibonacciSeeds n).get ⟨j, hj⟩)
    ∧ fibonacciSeeds n = fibonacciSeeds n := by
  have hlen : (fibonacciSeeds n).length = n := fibonacciSeeds_length n
  refine ⟨hlen, ?_, ?_, ?_, rfl⟩
  · intro i h
    exact fibonacciSeeds_get n i h
  · intro i h
    rw [fibonacciSeeds_get n i h]
    exact fibDir_unit n i (by rw [hlen] at h; exact h)
  · intro i j hi hj hij
    rw [fibonacciSeeds_get n i hi, fibonacciSeeds_get n j hj]
    exact fibDir_inj n i j (by rw [hlen] at hi; exact hi) (by rw [hlen] at hj; exact hj) hij

/-- Witness for C3 at the concrete face count `n = 3`. -/
theorem C3_wit :
    3 ≤ 3 ∧ 3 ≤ MAX_SEEDS_SPHERE ∧
      ((fibonacciSeeds 3).length = 3
      ∧ (∀ i (h : i < (fibonacciSeeds 3).length), (fibonacciSeeds 3).get ⟨i, h⟩ = fibDir 3 i)
      ∧ (∀ i (h : i < (fibonacciSeeds 3).length),
          normSq3 ((fibonacciSeeds 3).get ⟨i, h⟩) = 1)
      ∧ (∀ i j (hi : i < (fibonacciSeeds 3).length) (hj : j < (fibonacciSeeds 3).length),
          i ≠ j → (fibonacciSeeds 3).get ⟨i, hi⟩ ≠ (fibonacciSeeds 3).get ⟨j, hj⟩)
      ∧ fibonacciSeeds 3 = fibonacciSeeds 3) :=
  ⟨le_rfl, by norm_num [MAX_SEEDS_SPHERE], C3_thm 3 le_rfl (by norm_num [MAX_SEEDS_SPHERE])⟩

/-! ## Facts about the JavaScript integer coercions -/

theorem toInt32_eq_self (i : ℤ) (h1 : -2 ^ 31 ≤ i) (h2 : i < 2 ^ 31) : toInt32 i = i := by
  rw [toInt32, Int.emod_eq_of_lt (by linarith) (by linarith)]
  ring

theorem tmod_neg_left (a b : ℤ) : (-a).tmod b = -(a.tmod b) := by
  rw [Int.tmod_def, Int.tmod_def, Int.neg_tdiv]
  ring

theorem tmod_gt_neg (a : ℤ) {b : ℤ} (hb : 0 < b) : -b < a.tmod b := by
  rcases le_or_lt 0 a with ha | ha
  · have := Int.tmod_nonneg b ha
    linarith
  · have h1 : (-a).tmod b < b := Int.tmod_lt_of_pos (-a) hb
    rw [tmod_neg_left] at h1
    linarith

theorem tmod_emod (a b : ℤ) : a.tmod b % b = a % b := by
  conv_rhs => rw [← Int.tmod_add_tdiv a b]
  rw [Int.add_mul_emod_self_left]

/-- The wrapped roll index is the Euclidean remainder of the 32-bit value. -/
theorem wrapIndex_eq (idx : ℤ) (len : ℕ) (h : 0 < len) :
    (wrapIndex idx len : ℤ) = toInt32 idx % (len : ℤ) := by
  have hL : (0 : ℤ) < (len : ℤ) := by exact_mod_cast h
  have hlow : -(len : ℤ) < (toInt32 idx).tmod len := tmod_gt_neg _ hL
  have hnn : 0 ≤ (toInt32 idx).tmod len + len := by linarith
  have h2 : ((toInt32 idx).tmod len + len).tmod len
      = ((toInt32 idx).tmod len + len) % len := Int.tmod_eq_emod hnn hL.le
  have h3 : ((toInt32 idx).tmod len + len) % len = toInt32 idx % len := by
    rw [Int.add_emod, Int.emod_self, add_zero, Int.emod_emod, tmod_emod]
  have h4 : 0 ≤ toInt32 idx % (len : ℤ) := Int.emod_nonneg _ (ne_of_gt hL)
  rw [wrapIndex, h2, h3, Int.toNat_of_nonneg h4]

theorem wrapIndex_lt (idx : ℤ) (len : ℕ) (h : 0 < len) : wrapIndex idx len < len := by
  have h1 := wrapIndex_eq idx len h
  have hL : (0 : ℤ) < (len : ℤ) := by exact_mod_cast h
  have h2 : toInt32 idx % (len : ℤ) < len := Int.emod_lt_of_pos _ hL
  omega

/-! ## Concrete states used by witnesses and counterexamples -/

/-- An orthonormal seed triple used as a concrete test configuration. -/
def testSeeds : List Vec3 := [⟨1, 0, 0⟩, ⟨0, 1, 0⟩, ⟨0, 0, 1⟩]

/-- A concrete three-face state: orthonormal seeds, identity orientation, no
active animation, empty readout. -/
def testState : DieState :=
  ⟨some testSeeds, List.replicate MAX_SEEDS unitX, 3, idQ, none, none⟩

/-! ## Claim C9 -/

/-- Claim C9: `rollTo` called before any seeds exist (stored list absent or
empty) returns immediately and changes nothing: the state is returned as is. -/
theorem C9_thm (idx : ℤ) (now : ℝ) (s : DieState)
    (h : s.seedDirs = none ∨ s.seedDirs = some []) :
    rollTo idx now s = s := by
  obtain ⟨sd, u, c, q, an, rt⟩ := s
  simp only at h
  rcases h with h | h <;> subst h <;> simp [rollTo]

/-- Witness for C9 at the boot state, which has no stored seeds. -/
theorem C9_wit :
    (initState.seedDirs = none ∨ initState.seedDirs = some []) ∧
      rollTo 0 0 initState = initState :=
  ⟨Or.inl rfl, C9_thm 0 0 initState (Or.inl rfl)⟩

/-! ## Claim C10 -/

/-- Counterexample to claim C10 as stated: `rollTo` changes more than "only
the current orientation and the animation state" — it also overwrites the
result readout. -/
theorem C10_cex : (rollTo 0 0 testState).resultText ≠ testState.resultText := by
  simp [rollTo, testState, testSeeds]

/-- Claim C10, amended: neither `rollTo` nor the frame step touches the
stored seed directions, the uniform seed array, or the active face count;
`rollTo` changes only the animation state and the result readout (not even
the orientation), and the frame step changes only the orientation and the
animation state. -/
theorem C10_thm (idx : ℤ) (now now' : ℝ) (s : DieState) :
    (rollTo idx now s).seedDirs = s.seedDirs
    ∧ (rollTo idx now s).uniformSeeds = s.uniformSeeds
    ∧ (rollTo idx now s).count = s.count
    ∧ (rollTo idx now s).rotQ = s.rotQ
    ∧ (render now' s).seedDirs = s.seedDirs
    ∧ (render now' s).uniformSeeds = s.uniformSeeds
    ∧ (render now' s).count = s.count
    ∧ (render now' s).resultText = s.resultText := by
  obtain ⟨sd, u, c, q, an, rt⟩ := s
  refine ⟨?_, ?_, ?_, ?_, ?_, ?_, ?_, ?_⟩ <;>
      cases sd <;> cases an <;> simp [rollTo, render] <;> split_ifs <;> simp

/-! ## Claim C5 -/

/-- Counterexample to claim C5 as stated: in the polyhedron variant the
readout is published by `rollTo` itself, at the very start of the roll, while
the freshly created animation is still active — not when the roll completes. -/
theorem C5_cex :
    (rollTo 0 5 testState).resultText = some (1, 3)
      ∧ (rollTo 0 5 testState).anim ≠ none := by
  constructor
  · simp [rollTo, testState, testSeeds]
    decide
  · simp [rollTo, testState, testSeeds]

/-- Claim C5, amended: in the polyhedron variant the readout `Result: k / dn`
(modelled as the pair `(k, n)`) is published by `rollTo` at the moment the
roll starts — `k` the 1-based wrapped target index, `n` the face count —
while the new animation is active, and the frame step never modifies the
readout; so publication happens at roll start (or, in the sphere variant, at
0.9 of the duration via a timeout), not at completion. -/
theorem C5_thm (idx : ℤ) (now : ℝ) (s : DieState) (dirs : List Vec3)
    (hd : s.seedDirs = some dirs) (hne : dirs ≠ []) :
    (rollTo idx now s).resultText = some (wrapIndex idx dirs.length + 1, dirs.length)
    ∧ (rollTo idx now s).anim ≠ none
    ∧ ∀ (now' : ℝ) (s' : DieState), (render now' s').resultText = s'.resultText := by
  obtain ⟨sd, u, c, q, an, rt⟩ := s
  simp only at hd
  subst hd
  have hlen : dirs.length ≠ 0 := by simpa using hne
  refine ⟨by simp [rollTo, hlen], by simp [rollTo, hlen], ?_⟩
  intro now' s'
  obtain ⟨sd', u', c', q', an', rt'⟩ := s'
  cases an' <;> simp [render]

/-- Witness for C5 on the concrete test state. -/
theorem C5_wit :
    testState.seedDirs = some testSeeds ∧ testSeeds ≠ [] ∧
      ((rollTo 0 5 testState).resultText
          = some (wrapIndex 0 testSeeds.length + 1, testSeeds.length)
      ∧ (rollTo 0 5 testState).anim ≠ none
      ∧ ∀ (now' : ℝ) (s' : DieState), (render now' s').resultText = s'.resultText) :=
  ⟨rfl, by simp [testSeeds], C5_thm 0 5 testState testSeeds rfl (by simp [testSeeds])⟩

/-! ## Claim C6 -/

/-- Counterexample to claim C6 as stated: `setSeeds (2^31)` yields count 3,
because the `n|0` coercion wraps `2^31` to `-2^31` before clamping, whereas
clamping the raw integer `2^31` into `[3, MAX_SEEDS]` would give 128. -/
theorem C6_cex :
    (setSeeds (2 ^ 31) initState).count = 3
      ∧ max 3 (min (MAX_SEEDS : ℤ) (2 ^ 31)) = 128 := by
  constructor
  · show (max 3 (min (MAX_SEEDS : ℤ) (toInt32 (2 ^ 31)))).toNat = 3
    decide
  · decide

/-- Claim C6, amended: for every integer `n` in the 32-bit range, `setSeeds n`
clamps `n` into `[3, MAX_SEEDS]` (never rejecting the input), re-establishes
the count invariant `3 ≤ count ≤ MAX_SEEDS`, and stores the freshly generated
seeds both as `seedDirs` and in the first `count` uniform slots; for integers
outside that range the clamp applies to the 32-bit wrap `n|0` instead of `n`. -/
theorem C6_thm (n : ℤ) (s : DieState) (h1 : -2 ^ 31 ≤ n) (h2 : n < 2 ^ 31) :
    ((setSeeds n s).count : ℤ) = max 3 (min (MAX_SEEDS : ℤ) n)
    ∧ 3 ≤ (setSeeds n s).count
    ∧ (setSeeds n s).count ≤ MAX_SEEDS
    ∧ (setSeeds n s).seedDirs = some (fibonacciSeeds (setSeeds n s).count)
    ∧ (setSeeds n s).uniformSeeds.take (setSeeds n s).count
        = fibonacciSeeds (setSeeds n s).count := by
  have hw : toInt32 n = n := toInt32_eq_self n h1 h2
  have hm3 : 3 ≤ max 3 (min (MAX_SEEDS : ℤ) n) := le_max_left _ _
  have hmM : max 3 (min (MAX_SEEDS : ℤ) n) ≤ (MAX_SEEDS : ℤ) :=
    max_le (by norm_num [MAX_SEEDS]) (min_le_left _ _)
  have hcount : (setSeeds n s).count = (max 3 (min (MAX_SEEDS : ℤ) n)).toNat := by
    simp [setSeeds, hw]
  refine ⟨?_, ?_, ?_, ?_, ?_⟩
  · rw [hcount, Int.toNat_of_nonneg (by linarith)]
  · rw [hcount]; omega
  · rw [hcount]
    have : ((MAX_SEEDS : ℕ) : ℤ) = (MAX_SEEDS : ℤ) := rfl
    omega
  · rw [hcount]
    simp [setSeeds, hw]
  · rw [hcount]
    simp only [setSeeds, hw]
    exact List.take_left' (fibonacciSeeds_length _)

/-- Witness for C6 at the boundary input `n = 1000`, which clamps to
`MAX_SEEDS = 128`. -/
theorem C6_wit :
    -2 ^ 31 ≤ (1000 : ℤ) ∧ (1000 : ℤ) < 2 ^ 31 ∧
      (((setSeeds 1000 initState).count : ℤ) = max 3 (min (MAX_SEEDS : ℤ) 1000)
      ∧ 3 ≤ (setSeeds 1000 initState).count
      ∧ (setSeeds 1000 initState).count ≤ MAX_SEEDS
      ∧ (setSeeds 1000 initState).seedDirs
          = some (fibonacciSeeds (setSeeds 1000 initState).count)
      ∧ (setSeeds 1000 initState).uniformSeeds.take (setSeeds 1000 initState).count
          = fibonacciSeeds (setSeeds 1000 initState).count) :=
  ⟨by norm_num, by norm_num, C6_thm 1000 initState (by norm_num) (by norm_num)⟩

/-! ## Claim C7 -/

/-- Counterexample to claim C7 as stated: with 3 faces, `rollTo (2^31 - 1)`
and `rollTo (2^31 - 1 + 3)` select different target faces (readouts `2 of 3`
versus `1 of 3`), because the `|0` coercion wraps the second index to a
negative 32-bit value that is not congruent to it modulo 3. -/
theorem C7_cex :
    (rollTo (2 ^ 31 - 1) 0 testState).resultText
      ≠ (rollTo (2 ^ 31 - 1 + 3) 0 testState).resultText := by
  simp [rollTo, testState, testSeeds]
  decide

/-- Claim C7, amended: whenever `idx` and `idx + count` are both 32-bit
representable (so the `|0` coercion is the identity), `rollTo idx` and
`rollTo (idx + count)` produce identical states — in particular the same
target face — and the selected face index is `idx` reduced Euclidean-modulo
`count` into `[0, count)`; negative indices therefore wrap upward.  For
indices outside the 32-bit range the reduction applies to `idx|0` instead. -/
theorem C7_thm (idx : ℤ) (now : ℝ) (s : DieState) (dirs : List Vec3)
    (hd : s.seedDirs = some dirs) (h3 : 3 ≤ dirs.length)
    (h1 : -2 ^ 31 ≤ idx) (h2 : idx + (dirs.length : ℤ) < 2 ^ 31) :
    rollTo idx now s = rollTo (idx + (dirs.length : ℤ)) now s
    ∧ (wrapIndex idx dirs.length : ℤ) = idx % (dirs.length : ℤ)
    ∧ wrapIndex idx dirs.length < dirs.length := by
  obtain ⟨sd, u, c, q, an, rt⟩ := s
  simp only at hd
  subst hd
  have hlen0 : 0 < dirs.length := by omega
  have hlenne : dirs.length ≠ 0 := by omega
  have e1 := wrapIndex_eq idx dirs.length hlen0
  have e2 := wrapIndex_eq (idx + (dirs.length : ℤ)) dirs.length hlen0
  have hw1 : toInt32 idx = idx := toInt32_eq_self idx h1 (by omega)
  have hw2 : toInt32 (idx + (dirs.length : ℤ)) = idx + (dirs.length : ℤ) :=
    toInt32_eq_self _ (by omega) (by omega)
  rw [hw1] at e1
  rw [hw2] at e2
  have heq : (idx + (dirs.length : ℤ)) % (dirs.length : ℤ) = idx % (dirs.length : ℤ) := by
    rw [Int.add_emod, Int.emod_self, add_zero, Int.emod_emod]
  have hwrapeq : wrapIndex idx dirs.length = wrapIndex (idx + (dirs.length : ℤ)) dirs.length := by
    omega
  refine ⟨?_, ?_, wrapIndex_lt idx dirs.length hlen0⟩
  · simp only [rollTo, hwrapeq]
  · rw [e1]

/-- Witness for C7 at `idx = 5` over the three-face test state
(both `5` and `8` select face index 2). -/
theorem C7_wit :
    testState.seedDirs = some testSeeds ∧ 3 ≤ testSeeds.length
    ∧ -2 ^ 31 ≤ (5 : ℤ) ∧ (5 : ℤ) + (testSeeds.length : ℤ) < 2 ^ 31
    ∧ (rollTo 5 0 testState = rollTo (5 + (testSeeds.length : ℤ)) 0 testState
      ∧ (wrapIndex 5 testSeeds.length : ℤ) = 5 % (testSeeds.length : ℤ)
      ∧ wrapIndex 5 testSeeds.length < testSeeds.length) :=
  ⟨rfl, by simp [testSeeds], by norm_num, by norm_num [testSeeds],
    C7_thm 5 0 testState testSeeds rfl (by simp [testSeeds]) (by norm_num)
      (by norm_num [testSeeds])⟩

/-! ## Claim C2 -/

/-- Claim C2: once the animation started by `rollTo idx` completes (the
clamped elapsed fraction reaches 1), the frame step clears the animation
state, holds the end orientation exactly, and that orientation rotates the
target face's seed direction exactly onto the toward-viewer axis `(0,0,1)`
(exact equality over the reals, which subsumes the claim's floating
tolerance).  Hypotheses: seeds are unit vectors, the current orientation is a
unit quaternion, and `setFromUnitVectors` takes its generic (non-antipodal)
branch. -/
theorem C2_thm (idx : ℤ) (now now' : ℝ) (s : DieState) (dirs : List Vec3)
    (hd : s.seedDirs = some dirs) (hne : dirs ≠ [])
    (hU : ∀ v ∈ dirs, normSq3 v = 1)
    (hq : normSqQ s.rotQ = 1)
    (hgen : numberEPSILON ≤ dot3 (applyQuaternion s.rotQ
        (dirs.getD (wrapIndex idx dirs.length) zero3)) zWorld + 1)
    (ht : DURATION_MS ≤ now' - now) :
    (render now' (rollTo idx now s)).anim = none
    ∧ (∃ a, (rollTo idx now s).anim = some a
        ∧ (render now' (rollTo idx now s)).rotQ = a.endQ)
    ∧ applyQuaternion (render now' (rollTo idx now s)).rotQ
        (dirs.getD (wrapIndex idx dirs.length) zero3) = zWorld := by
  obtain ⟨sd, u, c, q, an, rt⟩ := s
  simp only at hd hq hgen
  subst hd
  have hlen0 : 0 < dirs.length := by
    cases dirs
    · simp at hne
    · simp
  have hlenne : dirs.length ≠ 0 := hlen0.ne'
  have hwlt : wrapIndex idx dirs.length < dirs.length := wrapIndex_lt _ _ hlen0
  set v := dirs.getD (wrapIndex idx dirs.length) zero3 with hv
  have hvmem : v ∈ dirs := by
    rw [hv, List.getD_eq_get _ _ hwlt]
    exact List.get_mem dirs _ _
  have hvunit : normSq3 v = 1 := hU v hvmem
  have hrotunit : normSq3 (applyQuaternion q v) = 1 := by
    rw [normSq3_applyQuaternion q v hq, hvunit]
  have hnorm : normalize3 (applyQuaternion q v) = applyQuaternion q v :=
    normalize3_of_unit _ hrotunit
  have hzunit : normSq3 zWorld = 1 := by norm_num [normSq3, zWorld]
  obtain ⟨hdelta_unit, hdelta_apply⟩ :=
    setFromUnitVectors_spec (applyQuaternion q v) zWorld hrotunit hzunit hgen
  set endQ := quatMul (setFromUnitVectors (applyQuaternion q v) zWorld) q with hend
  have hroll : rollTo idx now (⟨some dirs, u, c, q, an, rt⟩ : DieState)
      = ⟨some dirs, u, c, q,
          some ⟨q, endQ, now, DURATION_MS⟩,
          some (wrapIndex idx dirs.length + 1, dirs.length)⟩ := by
    simp only [rollTo, hlenne, if_false, ← hv, hnorm, hend]
  have hdur : (0 : ℝ) < DURATION_MS := by norm_num [DURATION_MS]
  have htt : min 1 ((now' - now) / DURATION_MS) = 1 :=
    min_eq_left ((one_le_div hdur).mpr ht)
  have hrender : render now' (⟨some dirs, u, c, q,
        some ⟨q, endQ, now, DURATION_MS⟩,
        some (wrapIndex idx dirs.length + 1, dirs.length)⟩ : DieState)
      = ⟨some dirs, u, c, endQ, none,
          some (wrapIndex idx dirs.length + 1, dirs.length)⟩ := by
    simp only [render, htt]
    norm_num [slerp]
  rw [hroll, hrender]
  refine ⟨rfl, ⟨⟨q, endQ, now, DURATION_MS⟩, rfl, rfl⟩, ?_⟩
  rw [hend, applyQuaternion_mul _ _ _ hdelta_unit hq]
  exact hdelta_apply

/-- Witness for C2: rolling the three-face test state to face 2 (seed
`(0,0,1)`, already toward the viewer) and stepping a frame at `now' = 900`. -/
theorem C2_wit :
    testState.seedDirs = some testSeeds ∧ testSeeds ≠ []
    ∧ (∀ v ∈ testSeeds, normSq3 v = 1)
    ∧ normSqQ testState.rotQ = 1
    ∧ numberEPSILON ≤ dot3 (applyQuaternion testState.rotQ
        (testSeeds.getD (wrapIndex 2 testSeeds.length) zero3)) zWorld + 1
    ∧ DURATION_MS ≤ 900 - 0
    ∧ ((render 900 (rollTo 2 0 testState)).anim = none
      ∧ (∃ a, (rollTo 2 0 testState).anim = some a
          ∧ (render 900 (rollTo 2 0 testState)).rotQ = a.endQ)
      ∧ applyQuaternion (render 900 (rollTo 2 0 testState)).rotQ
          (testSeeds.getD (wrapIndex 2 testSeeds.length) zero3) = zWorld) := by
  have hw : wrapIndex 2 testSeeds.length = 2 := by decide
  have hU : ∀ v ∈ testSeeds, normSq3 v = 1 := by
    intro v hv
    simp only [testSeeds, List.mem_cons, List.not_mem_nil, or_false] at hv
    rcases hv with rfl | rfl | rfl <;> norm_num [normSq3]
  have hgen : numberEPSILON ≤ dot3 (applyQuaternion testState.rotQ
      (testSeeds.getD (wrapIndex 2 testSeeds.length) zero3)) zWorld + 1 := by
    rw [hw]
    norm_num [testState, testSeeds, idQ, applyQuaternion, dot3, zWorld, numberEPSILON]
  exact ⟨rfl, by simp [testSeeds], hU, by norm_num [testState, idQ, normSqQ], hgen,
    by norm_num [DURATION_MS],
    C2_thm 2 0 900 testState testSeeds rfl (by simp [testSeeds]) hU
      (by norm_num [testState, idQ, normSqQ]) hgen (by norm_num [DURATION_MS])⟩

/-! ## Claim C8 -/

/-- Claim C8: a `rollTo` issued while an animation is in progress replaces
the animation record wholesale with a fresh one whose start time is the call
time and whose duration is `DURATION_MS`, and whose start orientation is the
state's current orientation — which, after a frame step of the old
animation, is the freshly interpolated orientation, not the old record's
start orientation. -/
theorem C8_thm (idx : ℤ) (now now' : ℝ) (s0 : DieState) (a : AnimState)
    (dirs : List Vec3) (ha : s0.anim = some a) (hd : s0.seedDirs = some dirs)
    (hne : dirs ≠ []) :
    (rollTo idx now (render now' s0)).anim
      = some ⟨(render now' s0).rotQ,
          quatMul (setFromUnitVectors
            (normalize3 (applyQuaternion (render now' s0).rotQ
              (dirs.getD (wrapIndex idx dirs.length) zero3))) zWorld)
            (render now' s0).rotQ,
          now, DURATION_MS⟩
    ∧ (render now' s0).rotQ
        = slerp a.startQ a.endQ (1 - (1 - min 1 ((now' - a.startTime) / a.dur)) ^ 3) := by
  obtain ⟨sd, u, c, q, an, rt⟩ := s0
  simp only at ha hd
  subst ha
  subst hd
  have hlenne : dirs.length ≠ 0 := by simpa using hne
  constructor
  · simp only [render, rollTo, hlenne, if_false]
  · simp [render]

/-- A concrete mid-animation state for the C8 witness: the test configuration
with an identity-to-identity animation already active. -/
def testAnimState : DieState :=
  ⟨some testSeeds, List.replicate MAX_SEEDS unitX, 3, idQ,
   some ⟨idQ, idQ, 0, DURATION_MS⟩, none⟩

/-- Witness for C8: re-rolling the animating test state mid-flight. -/
theorem C8_wit :
    testAnimState.anim = some ⟨idQ, idQ, 0, DURATION_MS⟩
    ∧ testAnimState.seedDirs = some testSeeds ∧ testSeeds ≠ []
    ∧ ((rollTo 1 450 (render 100 testAnimState)).anim
        = some ⟨(render 100 testAnimState).rotQ,
            quatMul (setFromUnitVectors
              (normalize3 (applyQuaternion (render 100 testAnimState).rotQ
                (testSeeds.getD (wrapIndex 1 testSeeds.length) zero3))) zWorld)
              (render 100 testAnimState).rotQ,
            450, DURATION_MS⟩
      ∧ (render 100 testAnimState).rotQ
          = slerp idQ idQ (1 - (1 - min 1 ((100 - 0) / DURATION_MS)) ^ 3)) :=
  ⟨rfl, rfl, by simp [testSeeds],
    C8_thm 1 450 100 testAnimState ⟨idQ, idQ, 0, DURATION_MS⟩ testSeeds rfl rfl
      (by simp [testSeeds])⟩

/-! ## Claim C1: the shader loop against the spec's algorithm -/

theorem parallelEps_pos : (0 : ℝ) < parallelEps := by norm_num [parallelEps]

/-- The shader loop computes exactly the spec's slab-clipping pass when the
latter's `tFar` is kept as a plain real (`-1` encoding the unset face). -/
theorem intersectLoop_eq_slabFin (offset : ℝ) (ro rd : Vec3) (rot : Mat3) :
    ∀ (l : List Vec3) (i : ℕ) (tN tF : ℝ) (eF : Option ℕ),
      intersectLoop offset ro rd rot l i tN tF (encodeE eF)
        = Option.map (fun s => (s.1, s.2.1, encodeE s.2.2))
            (slabLoopFin offset ro rd (l.map (matVec rot)) i tN tF eF)
  | [], _, _, _, _ => rfl
  | v :: rest, i, tN, tF, eF => by
    simp only [List.map_cons, intersectLoop, slabLoopFin]
    set dn := dot3 (matVec rot v) rd with hdn
    set nm := offset - dot3 (matVec rot v) ro with hnm
    by_cases hpar : |dn| < parallelEps
    · simp only [hpar, if_true]
      by_cases hnum : nm < 0
      · simp only [hnum, if_true]
        rfl
      · simp only [hnum, if_false]
        exact intersectLoop_eq_slabFin offset ro rd rot rest (i + 1) tN tF eF
    · simp only [hpar, if_false]
      set t0 := nm / dn with ht0
      have hdne : dn ≠ 0 := by
        intro h0
        rw [h0] at hpar
        exact hpar (by simpa using parallelEps_pos)
      by_cases hneg : dn < 0
      · have hnpos : ¬(0 < dn ∧ t0 < tF) := fun h => absurd h.1 (by linarith)
        by_cases hupd : tN < t0
        · have hcc : dn < 0 ∧ tN < t0 := ⟨hneg, hupd⟩
          simp only [hneg, hupd, hcc, hnpos, and_self, and_true, true_and, and_false, false_and, if_true, if_false]
          by_cases hterm : tF < t0
          · simp only [hterm, if_true]
            rfl
          · simp only [hterm, if_false]
            exact intersectLoop_eq_slabFin offset ro rd rot rest (i + 1) t0 tF (some i)
        · have hcc : ¬(dn < 0 ∧ tN < t0) := fun h => hupd h.2
          simp only [hneg, hupd, hcc, hnpos, and_self, and_true, true_and, and_false, false_and, if_true, if_false]
          by_cases hterm : tF < tN
          · simp only [hterm, if_true]
            rfl
          · simp only [hterm, if_false]
            exact intersectLoop_eq_slabFin offset ro rd rot rest (i + 1) tN tF eF
      · have hcc : ¬(dn < 0 ∧ tN < t0) := fun h => hneg h.1
        by_cases hfar : t0 < tF
        · have hpos : 0 < dn := lt_of_le_of_ne (not_lt.mp hneg) (Ne.symm hdne)
          have hc2 : 0 < dn ∧ t0 < tF := ⟨hpos, hfar⟩
          simp only [hneg, hfar, hcc, hc2, and_self, and_true, true_and, and_false, false_and, if_true, if_false]
          by_cases hterm : t0 < tN
          · simp only [hterm, if_true]
            rfl
          · simp only [hterm, if_false]
            exact intersectLoop_eq_slabFin offset ro rd rot rest (i + 1) tN t0 eF
        · have hc2 : ¬(0 < dn ∧ t0 < tF) := fun h => hfar h.2
          simp only [hneg, hfar, hcc, hc2, and_self, and_true, true_and, and_false, false_and, if_true, if_false]
          by_cases hterm : tF < tN
          · simp only [hterm, if_true]
            rfl
          · simp only [hterm, if_false]
            exact intersectLoop_eq_slabFin offset ro rd rot rest (i + 1) tN tF eF

/-- The entering face recorded by the spec loop, when it finishes, is always
an index of a visited face. -/
theorem slabLoopFin_face_bound (offset : ℝ) (ro rd : Vec3) :
    ∀ (l : List Vec3) (i : ℕ) (tN tF : ℝ) (eF : Option ℕ),
      (∀ m, eF = some m → m < i) →
      slabLoopFin offset ro rd l i tN tF eF = none
      ∨ ∃ tN' tF' eF', slabLoopFin offset ro rd l i tN tF eF = some (tN', tF', eF')
          ∧ ∀ m, eF' = some m → m < i + l.length
  | [], i, tN, tF, eF => fun hpre =>
      Or.inr ⟨tN, tF, eF, rfl, fun m hm => by
        have := hpre m hm
        omega⟩
  | v :: rest, i, tN, tF, eF => by
    intro hpre
    have hpre1 : ∀ m, eF = some m → m < i + 1 := fun m hm => Nat.lt_succ_of_lt (hpre m hm)
    have hprei : ∀ m, (some i : Option ℕ) = some m → m < i + 1 := by
      intro m hm
      obtain rfl : i = m := by simpa using hm
      omega
    have step : ∀ (tN0 tF0 : ℝ) (eG : Option ℕ), (∀ m, eG = some m → m < i + 1) →
        (slabLoopFin offset ro rd rest (i + 1) tN0 tF0 eG = none
        ∨ ∃ tN' tF' eF', slabLoopFin offset ro rd rest (i + 1) tN0 tF0 eG
              = some (tN', tF', eF')
            ∧ ∀ m, eF' = some m → m < i + (v :: rest).length) := by
      intro tN0 tF0 eG hG
      rcases slabLoopFin_face_bound offset ro rd rest (i + 1) tN0 tF0 eG hG with
        h | ⟨a, b, c, heq, hb⟩
      · exact Or.inl h
      · refine Or.inr ⟨a, b, c, heq, fun m hm => ?_⟩
        have := hb m hm
        simp only [List.length_cons] at *
        omega
    simp only [slabLoopFin]
    set t0 := (offset - dot3 v ro) / dot3 v rd with ht0
    by_cases hpar : |dot3 v rd| < parallelEps
    · simp only [hpar, if_true]
      by_cases hnum : offset - dot3 v ro < 0
      · simp only [hnum, if_true]
        exact Or.inl trivial
      · simp only [hnum, if_false]
        exact step tN tF eF hpre1
    · simp only [hpar, if_false]
      by_cases hupd : dot3 v rd < 0 ∧ tN < t0
      · by_cases hc2 : 0 < dot3 v rd ∧ t0 < tF
        · simp only [hupd, hc2, and_self, and_true, true_and, and_false, false_and,
            if_true, if_false]
          by_cases hterm : t0 < t0
          · simp only [hterm, if_true]
            exact Or.inl trivial
          · simp only [hterm, if_false]
            exact step t0 t0 (some i) hprei
        · simp only [hupd, hc2, and_self, and_true, true_and, and_false, false_and,
            if_true, if_false]
          by_cases hterm : tF < t0
          · simp only [hterm, if_true]
            exact Or.inl trivial
          · simp only [hterm, if_false]
            exact step t0 tF (some i) hprei
      · by_cases hc2 : 0 < dot3 v rd ∧ t0 < tF
        · simp only [hupd, hc2, and_self, and_true, true_and, and_false, false_and,
            if_true, if_false]
          by_cases hterm : t0 < tN
          · simp only [hterm, if_true]
            exact Or.inl trivial
          · simp only [hterm, if_false]
            exact step tN t0 eF hpre1
        · simp only [hupd, hc2, and_self, and_true, true_and, and_false, false_and,
            if_true, if_false]
          by_cases hterm : tF < tN
          · simp only [hterm, if_true]
            exact Or.inl trivial
          · simp only [hterm, if_false]
            exact step tN tF eF hpre1

/-- Claim C1, amended: on polyhedron states with unit face normals and a
norm-preserving orientation matrix, the shader's `intersectPoly` computes
exactly the spec's slab-clipping algorithm with `tFar` initialized to the
finite sentinel `1e9` instead of the spec's `+∞`: same per-face updates and
early exits, same hit/no-hit decision, same hit distance `max(tNear, 0)`,
same hit point, same entering face, and that face's rotated normal as the
surface normal. -/
theorem C1_thm (rot : Mat3) (seeds : List Vec3) (offset : ℝ) (ro rd : Vec3)
    (hU : ∀ v ∈ seeds, normSq3 v = 1)
    (hR : ∀ v, normSq3 (matVec rot v) = normSq3 v) :
    intersectPoly rot seeds offset ro rd
      = specToHit (intersectPolySpecFin (seeds.map (matVec rot)) offset ro rd) := by
  have hrel := intersectLoop_eq_slabFin offset ro rd rot seeds 0 0 tFarInit none
  simp only [encodeE] at hrel
  rcases slabLoopFin_face_bound offset ro rd (seeds.map (matVec rot)) 0 0 tFarInit none
      (by simp) with hnone | ⟨tN', tF', eF', hsome, hbound⟩
  · rw [hnone] at hrel
    simp only [Option.map_none'] at hrel
    rw [intersectPoly, hrel, intersectPolySpecFin, hnone]
    rfl
  · rw [hsome] at hrel
    simp only [Option.map_some'] at hrel
    rw [intersectPoly, hrel, intersectPolySpecFin, hsome]
    cases eF' with
    | none =>
      simp [encodeE, specToHit]
    | some k =>
      have hk : k < seeds.length := by
        have := hbound k rfl
        simpa using this
      have hkz : ¬((k : ℤ) < 0) := by omega
      by_cases hneg : tF' < 0
      · simp [encodeE, hkz, hneg, specToHit]
      · simp only [encodeE, hkz, hneg, or_self, if_false, specToHit]
        have hmem : seeds.getD k zero3 ∈ seeds := by
          rw [List.getD_eq_getElem _ _ hk]
          exact List.getElem_mem hk
        have hunit : normSq3 (matVec rot (seeds.getD k zero3)) = 1 := by
          rw [hR, hU _ hmem]
        have hnrm : (seeds.map (matVec rot)).getD k zero3
            = matVec rot (seeds.getD k zero3) := by
          rw [List.getD_eq_getElem _ _ (by simpa using hk),
            List.getD_eq_getElem _ _ hk, List.getElem_map]
        rw [hnrm]
        simp only [List.getD_eq_getElem?_getD] at hunit
        simp [normalize3_of_unit _ hunit]

/-- Counterexample to claim C1 as stated: the code starts `tFar` at the
finite `1e9`, not at `+∞`.  A ray entering a face at parameter `≈ 2·10⁹`
makes the code bail out with "no hit" (the running `tNear` exceeds the `1e9`
sentinel), while the spec's algorithm with a genuine `tFar = +∞` reports a
hit. -/
theorem C1_cex :
    (intersectPoly id3 testSeeds POLY_OFFSET ⟨0, 0, 2000000000⟩ ⟨0, 0, -1⟩).ok = false
    ∧ (intersectPolySpecInf (testSeeds.map (matVec id3)) POLY_OFFSET
        ⟨0, 0, 2000000000⟩ ⟨0, 0, -1⟩).isSome = true := by
  constructor
  · norm_num [intersectPoly, intersectLoop, testSeeds, matVec, id3, dot3,
      POLY_OFFSET, parallelEps, tFarInit, noHit]
  · norm_num [intersectPolySpecInf, slabLoopInf, testSeeds, matVec, id3, dot3,
      POLY_OFFSET, parallelEps]

/-- Witness for the amended C1 on the orthonormal test configuration. -/
theorem C1_wit :
    (∀ v ∈ testSeeds, normSq3 v = 1)
    ∧ (∀ v, normSq3 (matVec id3 v) = normSq3 v)
    ∧ intersectPoly id3 testSeeds POLY_OFFSET ⟨0, 0, 2000000000⟩ ⟨0, 0, -1⟩
        = specToHit (intersectPolySpecFin (testSeeds.map (matVec id3)) POLY_OFFSET
            ⟨0, 0, 2000000000⟩ ⟨0, 0, -1⟩) := by
  have hU : ∀ v ∈ testSeeds, normSq3 v = 1 := by
    intro v hv
    simp only [testSeeds, List.mem_cons, List.not_mem_nil, or_false] at hv
    rcases hv with rfl | rfl | rfl <;> norm_num [normSq3]
  have hR : ∀ v, normSq3 (matVec id3 v) = normSq3 v := by
    intro v
    rw [matVec_id3]
  exact ⟨hU, hR, C1_thm id3 testSeeds POLY_OFFSET ⟨0, 0, 2000000000⟩ ⟨0, 0, -1⟩ hU hR⟩

/-! ## Claim C4: seed rays against the intersector -/

theorem dot3_zero_right (v : Vec3) : dot3 v zero3 = 0 := by
  simp [dot3, zero3]

theorem dot3_self (v : Vec3) : dot3 v v = normSq3 v := rfl

theorem dot3_neg_right (v w : Vec3) : dot3 v (neg3 w) = -dot3 v w := by
  simp only [dot3, neg3]
  ring

theorem dot3_scale_right (c : ℝ) (v w : Vec3) : dot3 v (scale3 c w) = c * dot3 v w := by
  simp only [dot3, scale3]
  ring

/-- Cauchy-Schwarz for unit vectors: the dot product lies in `[-1, 1]`. -/
theorem dot3_unit_bounds (v w : Vec3) (hv : normSq3 v = 1) (hw : normSq3 w = 1) :
    -1 ≤ dot3 v w ∧ dot3 v w ≤ 1 := by
  simp only [normSq3] at hv hw
  simp only [dot3]
  constructor
  · nlinarith [sq_nonneg (v.x + w.x), sq_nonneg (v.y + w.y), sq_nonneg (v.z + w.z)]
  · nlinarith [sq_nonneg (v.x - w.x), sq_nonneg (v.y - w.y), sq_nonneg (v.z - w.z)]

/-- From the origin — which lies strictly inside every half-space when the
offset is positive — the shader loop never records an entering face and never
lets `tNear` leave 0. -/
theorem intersectLoop_origin (offset : ℝ) (rd : Vec3) (rot : Mat3) (hoff : 0 < offset) :
    ∀ (l : List Vec3) (i : ℕ) (tF : ℝ) (eI : ℤ), 0 < tF →
      intersectLoop offset zero3 rd rot l i 0 tF eI = none
      ∨ ∃ tF', 0 < tF' ∧ intersectLoop offset zero3 rd rot l i 0 tF eI = some (0, tF', eI)
  | [], _, tF, eI => fun htF => Or.inr ⟨tF, htF, rfl⟩
  | v :: rest, i, tF, eI => by
    intro htF
    simp only [intersectLoop, dot3_zero_right, sub_zero]
    by_cases hpar : |dot3 (matVec rot v) rd| < parallelEps
    · simp only [hpar, if_true]
      have hnn : ¬(offset < 0) := by linarith
      simp only [hnn, if_false]
      exact intersectLoop_origin offset rd rot hoff rest (i + 1) tF eI htF
    · simp only [hpar, if_false]
      set dn := dot3 (matVec rot v) rd with hdn
      by_cases hneg : dn < 0
      · have hupd : ¬((0 : ℝ) < offset / dn) :=
          not_lt.mpr (le_of_lt (div_neg_of_pos_of_neg hoff hneg))
        simp only [hneg, hupd, if_true, if_false]
        have hterm : ¬(tF < (0 : ℝ)) := by linarith
        simp only [hterm, if_false]
        exact intersectLoop_origin offset rd rot hoff rest (i + 1) tF eI htF
      · have hdne : dn ≠ 0 := by
          intro h0
          rw [h0] at hpar
          exact hpar (by simpa using parallelEps_pos)
        have hdpos : 0 < dn := lt_of_le_of_ne (not_lt.mp hneg) (Ne.symm hdne)
        have ht0pos : 0 < offset / dn := div_pos hoff hdpos
        simp only [hneg, if_false]
        by_cases hfar : offset / dn < tF
        · simp only [hfar, if_true]
          have hterm : ¬(offset / dn < (0 : ℝ)) := by linarith
          simp only [hterm, if_false]
          exact intersectLoop_origin offset rd rot hoff rest (i + 1) (offset / dn) eI ht0pos
        · simp only [hfar, if_false]
          have hterm : ¬(tF < (0 : ℝ)) := by linarith
          simp only [hterm, if_false]
          exact intersectLoop_origin offset rd rot hoff rest (i + 1) tF eI htF

/-- With a positive offset, a ray cast from the origin never produces a hit:
the intersector only ever reports entry faces, and the origin is inside. -/
theorem intersectPoly_origin_miss (rot : Mat3) (seeds : List Vec3) (offset : ℝ)
    (hoff : 0 < offset) (rd : Vec3) :
    (intersectPoly rot seeds offset zero3 rd).ok = false := by
  rcases intersectLoop_origin offset rd rot hoff seeds 0 tFarInit (-1)
      (by norm_num [tFarInit]) with h | ⟨tF', hpos, h⟩
  · rw [intersectPoly, h]
    rfl
  · rw [intersectPoly, h]
    norm_num [noHit]

/-- Counterexample to claim C4 as stated: on the three-face Fibonacci state,
casting a ray from the origin along seed 0's own direction, the intersector
reports NO hit at all (`ok = false`), not a hit at distance `offset`: the
origin is inside the solid and the slab clipper only reports entry faces. -/
theorem C4_cex :
    (intersectPoly id3 (fibonacciSeeds 3) POLY_OFFSET zero3
      ((fibonacciSeeds 3).getD 0 zero3)).ok = false :=
  intersectPoly_origin_miss id3 (fibonacciSeeds 3) POLY_OFFSET
    (by norm_num [POLY_OFFSET]) _

/-- Loop invariant for a ray cast from `2·n_k` toward the origin along
`-n_k` over unit faces pairwise separated from `n_k`: the entering face
settles on `k` with `tNear = 2 - POLY_OFFSET`, and `tFar` never drops below
`29/10`. -/
theorem c4_loop (nk : Vec3) (hnk : normSq3 nk = 1) (k : ℕ) :
    ∀ (l : List Vec3) (i : ℕ) (tN tF : ℝ) (eI : ℤ),
      (∀ p (hp : p < l.length), normSq3 (l.get ⟨p, hp⟩) = 1) →
      (∀ p (hp : p < l.length), i + p = k → l.get ⟨p, hp⟩ = nk) →
      (∀ p (hp : p < l.length), i + p ≠ k → dot3 (l.get ⟨p, hp⟩) nk < 1) →
      29 / 10 ≤ tF →
      (k < i → tN = 2 - POLY_OFFSET ∧ eI = (k : ℤ)) →
      (i ≤ k → tN < 2 - POLY_OFFSET) →
      ∃ tN' tF' eI',
        intersectLoop POLY_OFFSET (scale3 2 nk) (neg3 nk) id3 l i tN tF eI
          = some (tN', tF', eI')
        ∧ 29 / 10 ≤ tF'
        ∧ (k < i + l.length → tN' = 2 - POLY_OFFSET ∧ eI' = (k : ℤ))
        ∧ (i + l.length ≤ k → tN' < 2 - POLY_OFFSET)
  | [], i, tN, tF, eI => by
    intro hUl hKl hSl htF hA hB
    exact ⟨tN, tF, eI, rfl, htF, by simpa using hA, by simpa using hB⟩
  | v :: rest, i, tN, tF, eI => by
    intro hUl hKl hSl htF hA hB
    have hvu : normSq3 v = 1 := by simpa using hUl 0 (by simp)
    have hPO : POLY_OFFSET = 9 / 10 := by norm_num [POLY_OFFSET]
    have h29 : 2 - POLY_OFFSET < 29 / 10 := by norm_num [POLY_OFFSET]
    set d := dot3 v nk with hd
    obtain ⟨hdlo, hdhi⟩ := dot3_unit_bounds v nk hvu hnk
    have htN : tN ≤ 2 - POLY_OFFSET := by
      rcases lt_or_le k i with h | h
      · exact (hA h).1.le
      · exact (hB h).le
    have hdn : dot3 (matVec id3 v) (neg3 nk) = -d := by
      rw [matVec_id3, dot3_neg_right, hd]
    have hnm : POLY_OFFSET - dot3 (matVec id3 v) (scale3 2 nk) = POLY_OFFSET - 2 * d := by
      rw [matVec_id3, dot3_scale_right, hd]
    have hUt : ∀ p (hp : p < rest.length), normSq3 (rest.get ⟨p, hp⟩) = 1 := by
      intro p hp
      simpa using hUl (p + 1) (by simpa using Nat.succ_lt_succ hp)
    have hKt : ∀ p (hp : p < rest.length), (i + 1) + p = k → rest.get ⟨p, hp⟩ = nk := by
      intro p hp hpk
      have := hKl (p + 1) (by simpa using Nat.succ_lt_succ hp) (by omega)
      simpa using this
    have hSt : ∀ p (hp : p < rest.length), (i + 1) + p ≠ k →
        dot3 (rest.get ⟨p, hp⟩) nk < 1 := by
      intro p hp hpk
      have := hSl (p + 1) (by simpa using Nat.succ_lt_succ hp) (by omega)
      simpa using this
    have hfin : ∀ (tN0 tF0 : ℝ) (eI0 : ℤ),
        29 / 10 ≤ tF0 →
        (k < i + 1 → tN0 = 2 - POLY_OFFSET ∧ eI0 = (k : ℤ)) →
        (i + 1 ≤ k → tN0 < 2 - POLY_OFFSET) →
        ∃ tN' tF' eI',
          intersectLoop POLY_OFFSET (scale3 2 nk) (neg3 nk) id3 rest (i + 1) tN0 tF0 eI0
            = some (tN', tF', eI')
          ∧ 29 / 10 ≤ tF'
          ∧ (k < i + (v :: rest).length → tN' = 2 - POLY_OFFSET ∧ eI' = (k : ℤ))
          ∧ (i + (v :: rest).length ≤ k → tN' < 2 - POLY_OFFSET) := by
      intro tN0 tF0 eI0 h1 h2 h3
      obtain ⟨a, b, c, heq, hf, hA', hB'⟩ :=
        c4_loop nk hnk k rest (i + 1) tN0 tF0 eI0 hUt hKt hSt h1 h2 h3
      refine ⟨a, b, c, heq, hf, fun hlt => hA' ?_, fun hle => hB' ?_⟩
      · simp only [List.length_cons] at hlt
        omega
      · simp only [List.length_cons] at hle
        omega
    simp only [intersectLoop, hdn, hnm]
    by_cases hik : i = k
    · have hv_nk : v = nk := by simpa using hKl 0 (by simp) (by omega)
      have hd1 : d = 1 := by rw [hd, hv_nk, dot3_self, hnk]
      have hpar : ¬(|-d| < parallelEps) := by
        rw [hd1]
        norm_num [parallelEps]
      simp only [hpar, if_false]
      have hneg : -d < 0 := by rw [hd1]; norm_num
      have ht0 : (POLY_OFFSET - 2 * d) / (-d) = 2 - POLY_OFFSET := by
        rw [hd1]
        ring
      have hupd : tN < (POLY_OFFSET - 2 * d) / (-d) := by
        rw [ht0]
        exact hB (by omega)
      simp only [hneg, hupd, if_true]
      have hterm : ¬(tF < (POLY_OFFSET - 2 * d) / (-d)) := by
        rw [ht0]
        linarith
      simp only [hterm, if_false]
      exact hfin _ tF (i : ℤ) htF (fun _ => ⟨ht0, by simp [hik]⟩)
        (fun h => absurd h (by omega))
    · have hdlt : d < 1 := by
        have := hSl 0 (by simp) (by omega)
        simpa [hd] using this
      by_cases hpar : |-d| < parallelEps
      · obtain ⟨hab1, hab2⟩ := abs_lt.mp hpar
        have hns : ¬(POLY_OFFSET - 2 * d < 0) := by
          rw [hPO]
          rw [parallelEps] at hab1 hab2
          exact not_lt.mpr (by linarith)
        simp only [hpar, if_true, hns, if_false]
        exact hfin tN tF eI htF (fun h => hA (by omega)) (fun h => hB (by omega))
      · simp only [hpar, if_false]
        by_cases hneg : -d < 0
        · have hdpos : 0 < d := by linarith
          have ht0lt : (POLY_OFFSET - 2 * d) / (-d) < 2 - POLY_OFFSET := by
            rw [div_lt_iff_of_neg hneg, hPO]
            nlinarith
          simp only [hneg, if_true]
          by_cases hki : k < i
          · obtain ⟨htn, hei⟩ := hA hki
            have hupd : ¬(tN < (POLY_OFFSET - 2 * d) / (-d)) := by
              rw [htn]
              linarith
            simp only [hupd, if_false]
            have hterm : ¬(tF < tN) := by linarith
            simp only [hterm, if_false]
            exact hfin tN tF eI htF (fun _ => ⟨htn, hei⟩) (fun h => absurd h (by omega))
          · by_cases hupd : tN < (POLY_OFFSET - 2 * d) / (-d)
            · simp only [hupd, if_true]
              have hterm : ¬(tF < (POLY_OFFSET - 2 * d) / (-d)) := by linarith
              simp only [hterm, if_false]
              exact hfin _ tF (i : ℤ) htF (fun h => absurd h (by omega)) (fun _ => ht0lt)
            · simp only [hupd, if_false]
              have hterm : ¬(tF < tN) := by linarith
              simp only [hterm, if_false]
              exact hfin tN tF eI htF (fun h => absurd h (by omega))
                (fun _ => hB (by omega))
        · have hdneg : 0 ≤ -d := not_lt.mp hneg
          have heps_le : parallelEps ≤ -d := by
            have := not_lt.mp hpar
            rwa [abs_of_nonneg hdneg] at this
          have hdn0 : 0 < -d := lt_of_lt_of_le parallelEps_pos heps_le
          have ht0ge : 29 / 10 ≤ (POLY_OFFSET - 2 * d) / (-d) := by
            rw [le_div_iff hdn0, hPO]
            nlinarith
          simp only [hneg, if_false]
          by_cases hfar : (POLY_OFFSET - 2 * d) / (-d) < tF
          · simp only [hfar, if_true]
            have hterm : ¬((POLY_OFFSET - 2 * d) / (-d) < tN) := by linarith
            simp only [hterm, if_false]
            exact hfin tN _ eI ht0ge (fun h => hA (by omega)) (fun h => hB (by omega))
          · simp only [hfar, if_false]
            have hterm : ¬(tF < tN) := by linarith
            simp only [hterm, if_false]
            exact hfin tN tF eI htF (fun h => hA (by omega)) (fun h => hB (by omega))

/-- Claim C4, amended: for any polyhedron state whose active normals are unit
vectors with every other normal's dot product against the target seed
strictly below 1 (as the Fibonacci generator produces, since its seeds are
pairwise distinct), casting a ray from the outside point `2·n_k` toward the
origin (direction `-n_k`) hits that seed's own face `k` as decided by the
intersector, and the hit point `offset·n_k` lies at distance exactly
`offset` from the origin. -/
theorem C4_thm (L : List Vec3) (k : ℕ) (hk : k < L.length) (h3 : 3 ≤ L.length)
    (hU : ∀ v ∈ L, normSq3 v = 1)
    (hsep : ∀ j (hj : j < L.length), j ≠ k → dot3 (L.get ⟨j, hj⟩) (L.get ⟨k, hk⟩) < 1) :
    intersectPoly id3 L POLY_OFFSET (scale3 2 (L.get ⟨k, hk⟩)) (neg3 (L.get ⟨k, hk⟩))
      = ⟨true, 2 - POLY_OFFSET, (k : ℤ), L.get ⟨k, hk⟩,
         scale3 POLY_OFFSET (L.get ⟨k, hk⟩)⟩
    ∧ normSq3 (scale3 POLY_OFFSET (L.get ⟨k, hk⟩)) = POLY_OFFSET * POLY_OFFSET := by
  set nk := L.get ⟨k, hk⟩ with hnkdef
  have hnk : normSq3 nk = 1 := hU nk (List.get_mem L k hk)
  obtain ⟨tN', tF', eI', hloop, htF, hhit, _⟩ :=
    c4_loop nk hnk k L 0 0 tFarInit (-1)
      (fun p hp => hU _ (List.get_mem L p hp))
      (fun p hp hpk => by
        rw [hnkdef]
        obtain rfl : p = k := by omega
        rfl)
      (fun p hp hpk => hsep p hp (by omega))
      (by norm_num [tFarInit])
      (fun h => absurd h (by omega))
      (fun _ => by norm_num [POLY_OFFSET])
  obtain ⟨htn, hei⟩ := hhit (by omega)
  subst htn
  subst hei
  constructor
  · rw [intersectPoly, hloop]
    have hk0 : ¬((k : ℤ) < 0) := by omega
    have hf0 : ¬(tF' < 0) := by linarith
    simp only [hk0, hf0, or_self, if_false]
    have hmax : max (2 - POLY_OFFSET) 0 = 2 - POLY_OFFSET :=
      max_eq_left (by norm_num [POLY_OFFSET])
    have hgetD : L.getD ((k : ℤ)).toNat zero3 = nk := by
      rw [hnkdef, Int.toNat_natCast, List.getD_eq_getElem _ _ hk]
      rfl
    simp only [Hit.mk.injEq]
    refine ⟨trivial, hmax, trivial, ?_, ?_⟩
    · rw [hgetD, matVec_id3, normalize3_of_unit _ hnk]
    · rw [hmax]
      ext <;> simp only [add3, scale3, neg3] <;> ring
  · have hnk' := hnk
    simp only [normSq3] at hnk' ⊢
    simp only [scale3]
    linear_combination (POLY_OFFSET * POLY_OFFSET) * hnk'

/-- Witness for the amended C4 on the orthonormal test configuration with
target face 0. -/
theorem C4_wit :
    (0 : ℕ) < testSeeds.length ∧ 3 ≤ testSeeds.length
    ∧ (∀ v ∈ testSeeds, normSq3 v = 1)
    ∧ (∀ j (hj : j < testSeeds.length), j ≠ 0 →
        dot3 (testSeeds.get ⟨j, hj⟩) (testSeeds.get ⟨0, by simp [testSeeds]⟩) < 1)
    ∧ (intersectPoly id3 testSeeds POLY_OFFSET
          (scale3 2 (testSeeds.get ⟨0, by simp [testSeeds]⟩))
          (neg3 (testSeeds.get ⟨0, by simp [testSeeds]⟩))
        = ⟨true, 2 - POLY_OFFSET, (0 : ℤ), testSeeds.get ⟨0, by simp [testSeeds]⟩,
           scale3 POLY_OFFSET (testSeeds.get ⟨0, by simp [testSeeds]⟩)⟩
      ∧ normSq3 (scale3 POLY_OFFSET (testSeeds.get ⟨0, by simp [testSeeds]⟩))
          = POLY_OFFSET * POLY_OFFSET) := by
  have hU : ∀ v ∈ testSeeds, normSq3 v = 1 := by
    intro v hv
    simp only [testSeeds, List.mem_cons, List.not_mem_nil, or_false] at hv
    rcases hv with rfl | rfl | rfl <;> norm_num [normSq3]
  have hsep : ∀ j (hj : j < testSeeds.length), j ≠ 0 →
      dot3 (testSeeds.get ⟨j, hj⟩) (testSeeds.get ⟨0, by simp [testSeeds]⟩) < 1 := by
    intro j hj hj0
    simp only [testSeeds, List.length_cons, List.length_nil] at hj
    interval_cases j
    · exact absurd rfl hj0
    · norm_num [testSeeds, dot3]
    · norm_num [testSeeds, dot3]
  exact ⟨by simp [testSeeds], by simp [testSeeds], hU, hsep,
    C4_thm testSeeds 0 (by simp [testSeeds]) (by simp [testSeeds]) hU hsep⟩

end

end ArbitraryDice
